import Mathlib

/-!
Verification of the ts-validator runtime validation engine.

The definitions below are a shallow embedding of the validator module
(`Parser` and its concrete subclasses `DateV`, `BooleanV`, `StringV`,
`NumberV`, `ArrayV`, `ObjectV`, `UnionV`, `LiteralV`, `TupleV`, `RecordV`,
`NullV`, `UnknownV`, `DiscriminatedUnionV`).  JS runtime values are modelled
by `Value`, JS numbers by `JSNum` (NaN, signed infinities, finite values as
rationals), and the `Result` contract by `Res`.  Error strings produced by
the source are represented structurally by `Err`, one constructor per
distinct message the source can build, carrying the interpolated data.
Validator nodes are modelled by the inductive `Schema`, one constructor per
concrete class, carrying the configuration the class stores; `parse` is the
direct translation of the classes' `parse` methods.
-/

/-- JS runtime number: NaN, a signed infinity, or a finite value.  Finite
doubles are modelled as rationals; none of the verified behaviors depend on
float granularity. -/
inductive JSNum where
  | nan : JSNum
  | inf (positive : Bool) : JSNum
  | fin (q : ℚ) : JSNum
deriving DecidableEq

/-- JS `<` on numbers (IEEE semantics: any comparison with NaN is false). -/
def JSNum.jsLt : JSNum → JSNum → Bool
  | .nan, _ => false
  | _, .nan => false
  | .inf true, _ => false
  | .inf false, .inf false => false
  | .inf false, _ => true
  | .fin _, .inf true => true
  | .fin _, .inf false => false
  | .fin a, .fin b => decide (a < b)

/-- JS `<=` on numbers (IEEE semantics: any comparison with NaN is false). -/
def JSNum.jsLe : JSNum → JSNum → Bool
  | .nan, _ => false
  | _, .nan => false
  | .inf true, .inf true => true
  | .inf true, _ => false
  | .inf false, _ => true
  | .fin _, .inf true => true
  | .fin _, .inf false => false
  | .fin a, .fin b => decide (a ≤ b)

/-- JS `>` on numbers. -/
def JSNum.jsGt (a b : JSNum) : Bool := JSNum.jsLt b a

/-- JS `>=` on numbers. -/
def JSNum.jsGe (a b : JSNum) : Bool := JSNum.jsLe b a

/-- `Number.isInteger`. -/
def JSNum.isInteger : JSNum → Bool
  | .fin q => decide (q.den = 1)
  | _ => false

/-- `Number.isSafeInteger`: an integer of magnitude at most `2^53 - 1`. -/
def JSNum.isSafeInteger : JSNum → Bool
  | .fin q => decide (q.den = 1) && decide (q.num.natAbs ≤ 9007199254740991)
  | _ => false

/-- `Number.isFinite`. -/
def JSNum.isFiniteNum : JSNum → Bool
  | .fin _ => true
  | _ => false

/-- JS `===` on two numbers: false whenever either side is NaN. -/
def JSNum.strictEqNum : JSNum → JSNum → Bool
  | .nan, _ => false
  | _, .nan => false
  | .inf a, .inf b => a = b
  | .inf _, .fin _ => false
  | .fin _, .inf _ => false
  | .fin a, .fin b => decide (a = b)

/-- JS runtime value.  `date` holds the Date's time value; `obj` holds the
own enumerable string-keyed properties in enumeration order. -/
inductive Value where
  | undefined : Value
  | null : Value
  | bool (b : Bool) : Value
  | num (n : JSNum) : Value
  | str (s : String) : Value
  | date (t : JSNum) : Value
  | arr (elems : List Value) : Value
  | obj (fields : List (String × Value)) : Value

/-- Whether `typeof v === "object"` (true for null, Date objects, arrays and
plain objects). -/
def Value.typeofObject : Value → Bool
  | .null => true
  | .date _ => true
  | .arr _ => true
  | .obj _ => true
  | _ => false

/-- Property read `v[k]`, as used by the source after its typeof checks.  On
an array, JS exposes `length` and the canonical numeric indices as
properties; a Date object has no own enumerable properties. -/
def Value.objGet (v : Value) (k : String) : Value :=
  match v with
  | .obj fields => (fields.lookup k).getD .undefined
  | .arr es =>
    match (List.range es.length).find? (fun i => toString i = k) with
    | some i => es.getD i .undefined
    | none => if k = "length" then .num (.fin es.length) else .undefined
  | _ => .undefined

/-- Whether `v === null`. -/
def Value.isNull : Value → Bool
  | .null => true
  | _ => false

/-- The own enumerable entries traversed by `for (const key in value)`,
for the values that reach RecordV's loop (a Date has none). -/
def Value.recordFields : Value → List (String × Value)
  | .obj fields => fields
  | _ => []

/-- JS `===` as it can evaluate inside `LiteralV.parse`: the literal side is
constrained by the source to `string | number | boolean | null | undefined`,
so reference equality on objects never yields true. -/
def Value.strictEq : Value → Value → Bool
  | .undefined, .undefined => true
  | .null, .null => true
  | .bool a, .bool b => a = b
  | .num a, .num b => a.strictEqNum b
  | .str a, .str b => a = b
  | _, _ => false

/-- Structural representation of the error values built by the source; one
constructor per distinct message shape, carrying interpolated data. -/
inductive Err where
  | invalidDateFormat : Err
  | dateLtMin : Err
  | dateGtMax : Err
  | notBoolean : Err
  | notString : Err
  | strLtMin (m : ℕ) : Err
  | strGtMax (m : ℕ) : Err
  | notNumber : Err
  | notInteger : Err
  | notSafeInteger : Err
  | notFinite : Err
  | numNotGt (x : JSNum) : Err
  | numNotGte (x : JSNum) : Err
  | numNotLt (x : JSNum) : Err
  | numNotLte (x : JSNum) : Err
  | numLtMin (x : JSNum) : Err
  | numGtMax (x : JSNum) : Err
  | numNotPositive : Err
  | numNotNonpositive : Err
  | numNotNegative : Err
  | numNotNonnegative : Err
  | notArray : Err
  | arrLenNeq (n : ℕ) : Err
  | arrLtMin (n : ℕ) : Err
  | arrGtMax (n : ℕ) : Err
  | atIndex (i : ℕ) (e : Err) : Err
  | notObject : Err
  | fieldErrors (es : List (String × Err)) : Err
  | notInUnion : Err
  | notLiteral (lit : Value) : Err
  | notExactLength : Err
  | recordNotObject : Err
  | recordArray : Err
  | recordNull : Err
  | notNull : Err
  | duNotObject : Err
  | duEmptyObject : Err
  | duArray : Err
  | discriminatorNotFound (k : String) : Err
  | noParserForDiscriminator (t : Value) : Err

/-- The `Result` contract: success with an output value, or failure with an
error. -/
inductive Res where
  | ok (out : Value) : Res
  | err (e : Err) : Res

/-- Whether a result is the success variant (`res.success`). -/
def Res.isOk : Res → Bool
  | .ok _ => true
  | .err _ => false

/-- Configuration stored by `NumberV` (all optional refinements). -/
structure NumConf where
  mn : Option JSNum := none
  mx : Option JSNum := none
  gt : Option JSNum := none
  gte : Option JSNum := none
  lt : Option JSNum := none
  lte : Option JSNum := none
  int : Bool := false
  positive : Bool := false
  nonpositive : Bool := false
  negative : Bool := false
  nonnegative : Bool := false
  finite : Bool := false
  safe : Bool := false

/-- An unrefined `number()` configuration. -/
def NumConf.base : NumConf := {}

/-- Truncation toward zero, as `ToIntegerOrInfinity` applies to a finite
time value. -/
def ratTrunc (q : ℚ) : ℚ := if 0 ≤ q then ((⌊q⌋ : ℤ) : ℚ) else ((⌈q⌉ : ℤ) : ℚ)

/-- Time value of `new Date(value)` (`NaN` meaning an Invalid Date).  A Date
input keeps its time value; numbers are clipped to the representable range
and truncated; `null` and booleans coerce through `ToNumber`; `undefined`
gives NaN.  Host date-string parsing (and the `ToPrimitive`-then-parse path
for arrays and objects) is implementation-defined and modelled as
non-coercible. -/
def dateCoerce : Value → JSNum
  | .date t => t
  | .num (.fin q) => if 8640000000000000 < |q| then .nan else .fin (ratTrunc q)
  | .num _ => .nan
  | .null => .fin 0
  | .bool b => .fin (if b then 1 else 0)
  | .undefined => .nan
  | .str _ => .nan
  | .arr _ => .nan
  | .obj _ => .nan

/-- Head-of-failures result: the first failing refinement's description
becomes the error; with no failing refinement the number is returned. -/
def headRes (n : JSNum) : List Err → Res
  | [] => .ok (.num n)
  | e :: _ => .err e

/-- The guard sequence of `NumberV.parse`, one definition per early-return
check, in the source's order (the last check falls through to success). -/
def numCheckNonnegative (cfg : NumConf) (n : JSNum) : Res :=
  if cfg.nonnegative && n.jsLt (.fin 0) then .err .numNotNonnegative else .ok (.num n)

def numCheckNegative (cfg : NumConf) (n : JSNum) : Res :=
  if cfg.negative && n.jsGe (.fin 0) then .err .numNotNegative else numCheckNonnegative cfg n

def numCheckNonpositive (cfg : NumConf) (n : JSNum) : Res :=
  if cfg.nonpositive && n.jsGt (.fin 0) then .err .numNotNonpositive else numCheckNegative cfg n

def numCheckPositive (cfg : NumConf) (n : JSNum) : Res :=
  if cfg.positive && n.jsLe (.fin 0) then .err .numNotPositive else numCheckNonpositive cfg n

def numCheckMax (cfg : NumConf) (n : JSNum) : Res :=
  match cfg.mx with
  | some m => if n.jsGt m then .err (.numGtMax m) else numCheckPositive cfg n
  | none => numCheckPositive cfg n

def numCheckMin (cfg : NumConf) (n : JSNum) : Res :=
  match cfg.mn with
  | some m => if n.jsLt m then .err (.numLtMin m) else numCheckMax cfg n
  | none => numCheckMax cfg n

def numCheckLte (cfg : NumConf) (n : JSNum) : Res :=
  match cfg.lte with
  | some m => if n.jsGt m then .err (.numNotLte m) else numCheckMin cfg n
  | none => numCheckMin cfg n

def numCheckLt (cfg : NumConf) (n : JSNum) : Res :=
  match cfg.lt with
  | some m => if n.jsGe m then .err (.numNotLt m) else numCheckLte cfg n
  | none => numCheckLte cfg n

def numCheckGte (cfg : NumConf) (n : JSNum) : Res :=
  match cfg.gte with
  | some m => if n.jsLt m then .err (.numNotGte m) else numCheckLt cfg n
  | none => numCheckLt cfg n

def numCheckGt (cfg : NumConf) (n : JSNum) : Res :=
  match cfg.gt with
  | some m => if n.jsLe m then .err (.numNotGt m) else numCheckGte cfg n
  | none => numCheckGte cfg n

def numCheckFinite (cfg : NumConf) (n : JSNum) : Res :=
  if cfg.finite && !n.isFiniteNum then .err .notFinite else numCheckGt cfg n

def numCheckSafe (cfg : NumConf) (n : JSNum) : Res :=
  if cfg.safe && !n.isSafeInteger then .err .notSafeInteger else numCheckFinite cfg n

def numCheckInt (cfg : NumConf) (n : JSNum) : Res :=
  if cfg.int && !n.isInteger then .err .notInteger else numCheckSafe cfg n

/-- Validator nodes, one constructor per concrete `Parser` subclass, each
carrying exactly the configuration the class stores.  Object shapes are
association lists in enumeration order (for the identifier-named fields used
throughout the repository this is declaration order). -/
inductive Schema where
  | dateV (mn mx : Option JSNum) : Schema
  | booleanV : Schema
  | stringV (mn mx : Option ℕ) : Schema
  | numberV (cfg : NumConf) : Schema
  | arrayV (elem : Schema) (mn mx len : Option ℕ) : Schema
  | objectV (shape : List (String × Schema)) : Schema
  | unionV (cands : List Schema) : Schema
  | literalV (lit : Value) : Schema
  | tupleV (items : List Schema) (rest : Option Schema) : Schema
  | recordV (val : Schema) : Schema
  | nullV : Schema
  | unknownV : Schema
  | optionalV (inner : Schema) : Schema
  | nullableV (inner : Schema) : Schema
  | nullishV (inner : Schema) : Schema
  | transformV (inner : Schema) (f : Value → Value) : Schema
  | duV (disc : String) (shapes : List (List (String × Schema))) : Schema

/-- `ObjectV.field`: look up the validator declared for a field name. -/
def shapeField : List (String × Schema) → String → Option Schema
  | [], _ => none
  | (k1, s1) :: rest, k => if k = k1 then some s1 else shapeField rest k

/-- The path component prepended by `ObjectV.collectErrors`
(`path ? path + "." + key : key`). -/
def pathKey (path k : String) : String := if path = "" then k else path ++ "." ++ k

mutual
/-- Translation of the `parse` methods of every `Parser` subclass. -/
def parse : Schema → Value → Res
  | .dateV mn mx, v =>
    match dateCoerce v with
    | .nan => .err .invalidDateFormat
    | t =>
      match mn with
      | some m =>
        if t.jsLt m then .err .dateLtMin
        else
          match mx with
          | some m2 => if t.jsGt m2 then .err .dateGtMax else .ok (.date t)
          | none => .ok (.date t)
      | none =>
        match mx with
        | some m2 => if t.jsGt m2 then .err .dateGtMax else .ok (.date t)
        | none => .ok (.date t)
  | .booleanV, v =>
    match v with
    | .bool b => .ok (.bool b)
    | _ => .err .notBoolean
  | .stringV mn mx, v =>
    match v with
    | .str s =>
      match mn with
      | some m =>
        if s.length < m then .err (.strLtMin m)
        else
          match mx with
          | some m2 => if m2 < s.length then .err (.strGtMax m2) else .ok (.str s)
          | none => .ok (.str s)
      | none =>
        match mx with
        | some m2 => if m2 < s.length then .err (.strGtMax m2) else .ok (.str s)
        | none => .ok (.str s)
    | _ => .err .notString
  | .numberV cfg, v =>
    match v with
    | .num n => numCheckInt cfg n
    | _ => .err .notNumber
  | .arrayV elem mn mx len, v =>
    match v with
    | .arr es =>
      match len with
      | some l =>
        if es.length = l then .err (.arrLenNeq l)
        else arrayAfterLen elem es mn mx
      | none => arrayAfterLen elem es mn mx
    | _ => .err .notArray
  | .objectV shape, v => objectParse shape v
  | .unionV cands, v => unionLoop cands v
  | .literalV lit, v =>
    if v.strictEq lit then .ok v else .err (.notLiteral lit)
  | .tupleV items rest, v =>
    match v with
    | .arr es =>
      match rest with
      | none =>
        if es.length = items.length then
          match tupleFixed items es with
          | .error e => .err e
          | .ok os => .ok (.arr os)
        else .err .notExactLength
      | some r =>
        match tupleFixed items es with
        | .error e => .err e
        | .ok os1 =>
          match tupleRest r (es.drop items.length) with
          | .error e => .err e
          | .ok os2 => .ok (.arr (os1 ++ os2))
    | _ => .err .notArray
  | .recordV val, v =>
    match v with
    | .undefined | .bool _ | .num _ | .str _ => .err .recordNotObject
    | .arr _ => .err .recordArray
    | .null => .err .recordNull
    | _ =>
      match recordLoop val v.recordFields with
      | .error e => .err e
      | .ok outs => .ok (.obj outs)
  | .nullV, v =>
    match v with
    | .null => .ok .null
    | _ => .err .notNull
  | .unknownV, v => .ok v
  | .optionalV inner, v =>
    match v with
    | .undefined => .ok .undefined
    | _ => parse inner v
  | .nullableV inner, v =>
    match v with
    | .null => .ok .null
    | _ => parse inner v
  | .nullishV inner, v =>
    match v with
    | .null => .ok .null
    | .undefined => .ok .undefined
    | _ => parse inner v
  | .transformV inner f, v =>
    match parse inner v with
    | .err e => .err e
    | .ok o => .ok (f o)
  | .duV disc shapes, v =>
    match v with
    | .undefined | .bool _ | .num _ | .str _ => .err .duNotObject
    | .null => .err .duEmptyObject
    | .arr _ => .err .duArray
    | _ =>
      match v.objGet disc with
      | .undefined => .err (.discriminatorNotFound disc)
      | t => duLoop disc shapes v t
termination_by s _ => (sizeOf s, 2)

/-- The body of `ObjectV.parse`: collect all field errors, fail with the
aggregated collection when it is non-empty, succeed with the new keyed
collection of validated fields otherwise. -/
def objectParse (shape : List (String × Schema)) (v : Value) : Res :=
  match collectErrors shape v "" with
  | (_, e :: es) => .err (.fieldErrors (e :: es))
  | (outs, []) => .ok (.obj outs)
termination_by (sizeOf shape, 2)

/-- The min/max/element part of `ArrayV.parse`, after the length check. -/
def arrayAfterLen (elem : Schema) (es : List Value) (mn mx : Option ℕ) : Res :=
  match mn with
  | some m =>
    if es.length < m then .err (.arrLtMin m)
    else
      match mx with
      | some m2 =>
        if m2 < es.length then .err (.arrGtMax m2)
        else
          match arrayLoop elem es 0 with
          | .error e => .err e
          | .ok outs => .ok (.arr outs)
      | none =>
        match arrayLoop elem es 0 with
        | .error e => .err e
        | .ok outs => .ok (.arr outs)
  | none =>
    match mx with
    | some m2 =>
      if m2 < es.length then .err (.arrGtMax m2)
      else
        match arrayLoop elem es 0 with
        | .error e => .err e
        | .ok outs => .ok (.arr outs)
    | none =>
      match arrayLoop elem es 0 with
      | .error e => .err e
      | .ok outs => .ok (.arr outs)
termination_by (sizeOf elem, sizeOf es + 4)

/-- The element loop of `ArrayV.parse`: index order, first failure tagged
with its index. -/
def arrayLoop : Schema → List Value → ℕ → Except Err (List Value)
  | _, [], _ => .ok []
  | elem, e :: rest, i =>
    match parse elem e with
    | .err er => .error (.atIndex i er)
    | .ok o =>
      match arrayLoop elem rest (i + 1) with
      | .error er => .error er
      | .ok os => .ok (o :: os)
termination_by elem es _ => (sizeOf elem, sizeOf es + 3)

/-- `ObjectV.collectErrors`: the non-object guard, then the field loop. -/
def collectErrors (shape : List (String × Schema)) (v : Value) (path : String) :
    List (String × Value) × List (String × Err) :=
  if v.typeofObject && !v.isNull then collectFields shape v path
  else ([], [(path, .notObject)])
termination_by (sizeOf shape, 1)

/-- The field loop of `ObjectV.collectErrors`: every declared field is
validated against the correspondingly named input property; failures and
successes are collected in declaration order. -/
def collectFields : List (String × Schema) → Value → String →
    List (String × Value) × List (String × Err)
  | [], _, _ => ([], ([] : List (String × Err)))
  | (k, s) :: rest, v, path =>
    let res := parse s (v.objGet k)
    let tail := collectFields rest v path
    match res with
    | .err e => (tail.1, (pathKey path k, e) :: tail.2)
    | .ok o => ((k, o) :: tail.1, tail.2)
termination_by shape _ _ => (sizeOf shape, 0)

/-- `UnionV.parse`: try candidates in declaration order, first success wins. -/
def unionLoop : List Schema → Value → Res
  | [], _ => .err .notInUnion
  | c :: cs, v =>
    match parse c v with
    | .ok o => .ok o
    | .err _ => unionLoop cs v
termination_by cands _ => (sizeOf cands, 0)

/-- The fixed-position loop of `TupleV.parse` (`value[i]` reads beyond the
input's length give `undefined`); a position failure propagates the child's
error as is. -/
def tupleFixed : List Schema → List Value → Except Err (List Value)
  | [], _ => .ok []
  | p :: ps, es =>
    match parse p (es.headD .undefined) with
    | .err e => .error e
    | .ok o =>
      match tupleFixed ps es.tail with
      | .error e => .error e
      | .ok os => .ok (o :: os)
termination_by items _ => (sizeOf items, 0)

/-- The rest-validator loop of `TupleV.parse`, over the positions beyond the
fixed prefix. -/
def tupleRest : Schema → List Value → Except Err (List Value)
  | _, [] => .ok []
  | r, e :: rest =>
    match parse r e with
    | .err er => .error er
    | .ok o =>
      match tupleRest r rest with
      | .error er => .error er
      | .ok os => .ok (o :: os)
termination_by r es => (sizeOf r, sizeOf es + 3)

/-- The key loop of `RecordV.parse`: every observed key's value is validated
by the single value validator; a failure is returned unchanged. -/
def recordLoop : Schema → List (String × Value) → Except Err (List (String × Value))
  | _, [] => .ok []
  | val, (k, x) :: rest =>
    match parse val x with
    | .err e => .error e
    | .ok o =>
      match recordLoop val rest with
      | .error e => .error e
      | .ok os => .ok ((k, o) :: os)
termination_by val fs => (sizeOf val, sizeOf fs + 3)

/-- The dispatch loop of `DiscriminatedUnionV.parse` over the candidate
shapes, fused with the per-shape `field` lookup performed by
`constructDiscriminatorParsers`: the first candidate whose discriminator
validator accepts the tag value receives the entire input. -/
def duLoop : String → List (List (String × Schema)) → Value → Value → Res
  | _, [], _, t => .err (.noParserForDiscriminator t)
  | disc, sh :: rest, v, t =>
    match h : shapeField sh disc with
    | none => duLoop disc rest v t
    | some dp =>
      if (parse dp t).isOk then objectParse sh v
      else duLoop disc rest v t
termination_by _ shapes _ _ => (sizeOf shapes, 0)
decreasing_by
  all_goals simp_wf
  all_goals try omega
  all_goals
    (have hdp : sizeOf dp < sizeOf sh := by
      clear * - h
      induction sh with
      | nil => simp [shapeField] at h
      | cons hd tl ih =>
        obtain ⟨k1, s1⟩ := hd
        by_cases hk : disc = k1
        · simp [shapeField, hk] at h
          subst h
          simp
          omega
        · simp [shapeField, hk] at h
          have := ih h
          simp
          omega
     omega)
end

/-- `Parser.default`: sugar over `optional` plus a transform substituting
the default for the absence marker. -/
def Schema.defaultV (p : Schema) (d : Value) : Schema :=
  .transformV (.optionalV p) (fun v => match v with | .undefined => d | _ => v)

/-- The `OptionalV` of `src/validators.ts`, whose constructor additionally
accepts a default value substituted when the input is absent (the default
is considered configured when it is not `undefined`). -/
def optionalDParse (inner : Schema) (dflt : Value) (v : Value) : Res :=
  match v with
  | .undefined =>
    match dflt with
    | .undefined => .ok .undefined
    | _ => .ok dflt
  | _ => parse inner v

/-- `DiscriminatedUnionV.constructDiscriminatorParsers`: pair each candidate
that declares the discriminator field with that field's validator,
preserving declaration order. -/
def constructDiscriminatorParsers (disc : String)
    (shapes : List (List (String × Schema))) :
    List (Schema × List (String × Schema)) :=
  shapes.filterMap (fun sh => (shapeField sh disc).map (fun dp => (dp, sh)))

/-- Dispatch of `DiscriminatedUnionV.parse` as the spec describes it: reject
non-keyed-collection input, reject a missing tag, then hand the whole input
to the first candidate whose discriminator validator accepts the tag value,
failing with an error naming the tag value when no candidate matches. -/
def duDispatch (disc : String) (shapes : List (List (String × Schema)))
    (v : Value) : Res :=
  match v with
  | .undefined | .bool _ | .num _ | .str _ => .err .duNotObject
  | .null => .err .duEmptyObject
  | .arr _ => .err .duArray
  | _ =>
    match v.objGet disc with
    | .undefined => .err (.discriminatorNotFound disc)
    | t =>
      match (constructDiscriminatorParsers disc shapes).find?
          (fun p => (parse p.1 t).isOk) with
      | some p => parse (.objectV p.2) v
      | none => .err (.noParserForDiscriminator t)

/-- The field failures `ObjectV.collectErrors` accumulates on a keyed input:
exactly the declared fields whose validators reject the correspondingly
named input property, with their paths, in declaration order. -/
def fieldFailures (shape : List (String × Schema)) (v : Value) :
    List (String × Err) :=
  shape.filterMap (fun kv =>
    match parse kv.2 (v.objGet kv.1) with
    | .err e => some (kv.1, e)
    | .ok _ => none)

/-- The successful field outputs `ObjectV.collectErrors` accumulates on a
keyed input, in declaration order. -/
def fieldSuccesses (shape : List (String × Schema)) (v : Value) :
    List (String × Value) :=
  shape.filterMap (fun kv =>
    match parse kv.2 (v.objGet kv.1) with
    | .ok o => some (kv.1, o)
    | .err _ => none)

/-- One segment per `NumberV` refinement: the singleton of that
refinement's error when the refinement is configured and violated by `n`,
empty otherwise. -/
def segInt (cfg : NumConf) (n : JSNum) : List Err :=
  if cfg.int && !n.isInteger then [.notInteger] else []

def segSafe (cfg : NumConf) (n : JSNum) : List Err :=
  if cfg.safe && !n.isSafeInteger then [.notSafeInteger] else []

def segFinite (cfg : NumConf) (n : JSNum) : List Err :=
  if cfg.finite && !n.isFiniteNum then [.notFinite] else []

def segGt (cfg : NumConf) (n : JSNum) : List Err :=
  match cfg.gt with
  | some m => if n.jsLe m then [Err.numNotGt m] else []
  | none => []

def segGte (cfg : NumConf) (n : JSNum) : List Err :=
  match cfg.gte with
  | some m => if n.jsLt m then [Err.numNotGte m] else []
  | none => []

def segLt (cfg : NumConf) (n : JSNum) : List Err :=
  match cfg.lt with
  | some m => if n.jsGe m then [Err.numNotLt m] else []
  | none => []

def segLte (cfg : NumConf) (n : JSNum) : List Err :=
  match cfg.lte with
  | some m => if n.jsGt m then [Err.numNotLte m] else []
  | none => []

def segMin (cfg : NumConf) (n : JSNum) : List Err :=
  match cfg.mn with
  | some m => if n.jsLt m then [Err.numLtMin m] else []
  | none => []

def segMax (cfg : NumConf) (n : JSNum) : List Err :=
  match cfg.mx with
  | some m => if n.jsGt m then [Err.numGtMax m] else []
  | none => []

def segPositive (cfg : NumConf) (n : JSNum) : List Err :=
  if cfg.positive && n.jsLe (.fin 0) then [.numNotPositive] else []

def segNonpositive (cfg : NumConf) (n : JSNum) : List Err :=
  if cfg.nonpositive && n.jsGt (.fin 0) then [.numNotNonpositive] else []

def segNegative (cfg : NumConf) (n : JSNum) : List Err :=
  if cfg.negative && n.jsGe (.fin 0) then [.numNotNegative] else []

def segNonnegative (cfg : NumConf) (n : JSNum) : List Err :=
  if cfg.nonnegative && n.jsLt (.fin 0) then [.numNotNonnegative] else []

/-- The refinement checks of `NumberV.parse` that fail on input `n`, listed
in the source's evaluation order: the domain checks integer, safe-integer,
finite, then the bounds gt/gte/lt/lte/min/max, then the sign checks. -/
def failingChecks (cfg : NumConf) (n : JSNum) : List Err :=
  segInt cfg n ++ segSafe cfg n ++ segFinite cfg n ++ segGt cfg n ++
  segGte cfg n ++ segLt cfg n ++ segLte cfg n ++ segMin cfg n ++
  segMax cfg n ++ segPositive cfg n ++ segNonpositive cfg n ++
  segNegative cfg n ++ segNonnegative cfg n

mutual
/-- Whether a schema is free of the transform combinator. -/
def noTransform : Schema → Bool
  | .transformV _ _ => false
  | .optionalV i | .nullableV i | .nullishV i => noTransform i
  | .arrayV e _ _ _ => noTransform e
  | .recordV val => noTransform val
  | .objectV shape => noTransformShape shape
  | .unionV cands => noTransformList cands
  | .tupleV items rest =>
    noTransformList items &&
      (match rest with | some r => noTransform r | none => true)
  | .duV _ shapes => noTransformShapes shapes
  | _ => true
termination_by s => (sizeOf s, 1)

def noTransformList : List Schema → Bool
  | [] => true
  | s :: rest => noTransform s && noTransformList rest
termination_by l => (sizeOf l, 0)

def noTransformShape : List (String × Schema) → Bool
  | [] => true
  | (_, s) :: rest => noTransform s && noTransformShape rest
termination_by l => (sizeOf l, 0)

def noTransformShapes : List (List (String × Schema)) → Bool
  | [] => true
  | sh :: rest => noTransformShape sh && noTransformShapes rest
termination_by l => (sizeOf l, 0)
end

/-- Whether an object shape declares pairwise distinct field names (the
data-model invariant: every field name maps to exactly one validator). -/
def keysNodup (shape : List (String × Schema)) : Bool :=
  decide (shape.map Prod.fst).Nodup

mutual
/-- Whether a schema is free of the transform combinator and of the choice
combinators (union, discriminated union), with every object shape declaring
pairwise distinct field names. -/
def plain : Schema → Bool
  | .transformV _ _ => false
  | .unionV _ => false
  | .duV _ _ => false
  | .optionalV i | .nullableV i | .nullishV i => plain i
  | .arrayV e _ _ _ => plain e
  | .recordV val => plain val
  | .objectV shape => keysNodup shape && plainShape shape
  | .tupleV items rest =>
    plainList items && (match rest with | some r => plain r | none => true)
  | _ => true
termination_by s => (sizeOf s, 1)

def plainList : List Schema → Bool
  | [] => true
  | s :: rest => plain s && plainList rest
termination_by l => (sizeOf l, 0)

def plainShape : List (String × Schema) → Bool
  | [] => true
  | (_, s) :: rest => plain s && plainShape rest
termination_by l => (sizeOf l, 0)
end

theorem parse_objectV (shape : List (String × Schema)) (v : Value) :
    parse (.objectV shape) v = objectParse shape v := by
  simp [parse]

theorem pathKey_empty (k : String) : pathKey "" k = k := by
  simp [pathKey]

theorem isNull_eq_false (v : Value) (h : v ≠ .null) : v.isNull = false := by
  cases v <;> first | rfl | exact absurd rfl h

theorem collectFields_eq (shape : List (String × Schema)) (v : Value) :
    collectFields shape v "" = (fieldSuccesses shape v, fieldFailures shape v) := by
  induction shape with
  | nil => simp [collectFields, fieldSuccesses, fieldFailures]
  | cons kv rest ih =>
    obtain ⟨k, s⟩ := kv
    cases h : parse s (v.objGet k) <;>
      simp [collectFields, fieldSuccesses, fieldFailures, h, ih, pathKey_empty]

theorem collectErrors_of_keyed (shape : List (String × Schema)) (v : Value)
    (h1 : v.typeofObject = true) (h2 : v ≠ .null) :
    collectErrors shape v "" = (fieldSuccesses shape v, fieldFailures shape v) := by
  rw [collectErrors, h1, isNull_eq_false v h2]
  simp [collectFields_eq]

/-- Claim C1: on a keyed-collection input, a keyed-object validator collects
the failures of every failing declared field — each reported under its own
path — in field-declaration order, failing exactly when that collection is
non-empty, and otherwise producing the keyed collection of the declared
fields' validated outputs. -/
theorem objectV_parse_aggregates_field_errors (shape : List (String × Schema))
    (v : Value) (h1 : v.typeofObject = true) (h2 : v ≠ .null) :
    parse (.objectV shape) v =
      (match fieldFailures shape v with
       | [] => .ok (.obj (fieldSuccesses shape v))
       | e :: es => .err (.fieldErrors (e :: es))) := by
  rw [parse_objectV, objectParse, collectErrors_of_keyed shape v h1 h2]
  cases fieldFailures shape v <;> simp

/-- Witness for C1: two simultaneously invalid fields are both reported, in
declaration order. -/
theorem objectV_parse_aggregates_field_errors_instance :
    (Value.obj [("a", .num (.fin 1)), ("b", .str "x")]).typeofObject = true ∧
    Value.obj [("a", .num (.fin 1)), ("b", .str "x")] ≠ .null ∧
    parse (.objectV [("a", .stringV none none), ("b", .numberV NumConf.base)])
      (.obj [("a", .num (.fin 1)), ("b", .str "x")]) =
      .err (.fieldErrors [("a", .notString), ("b", .notNumber)]) := by
  refine ⟨rfl, by simp, ?_⟩
  have h := objectV_parse_aggregates_field_errors
    [("a", .stringV none none), ("b", .numberV NumConf.base)]
    (.obj [("a", .num (.fin 1)), ("b", .str "x")]) rfl (by simp)
  rw [h]
  simp [fieldFailures, fieldSuccesses, parse, Value.objGet, NumConf.base, List.lookup]

theorem duLoop_eq_find (disc : String) (shapes : List (List (String × Schema)))
    (v t : Value) :
    duLoop disc shapes v t =
      (match (constructDiscriminatorParsers disc shapes).find?
          (fun p => (parse p.1 t).isOk) with
       | some p => objectParse p.2 v
       | none => .err (.noParserForDiscriminator t)) := by
  induction shapes with
  | nil => simp [duLoop, constructDiscriminatorParsers]
  | cons sh rest ih =>
    rw [duLoop]
    cases h : shapeField sh disc with
    | none => simp [constructDiscriminatorParsers, List.filterMap_cons, h, ih,
        constructDiscriminatorParsers]
    | some dp =>
      cases hok : (parse dp t).isOk <;>
        simp [constructDiscriminatorParsers, List.filterMap_cons, h, hok, ih]

/-- Claim C2: a discriminated union rejects non-keyed-collection input,
rejects input whose tag property is absent with a missing-discriminator
error, hands the entire input value to the first candidate (in declaration
order) whose discriminator validator accepts the tag value — returning that
candidate's full parse result — and, when no candidate's discriminator
accepts the tag value, fails with an error naming the offending value. -/
theorem duV_parse_eq_duDispatch (disc : String)
    (shapes : List (List (String × Schema))) (v : Value) :
    parse (.duV disc shapes) v = duDispatch disc shapes v := by
  cases v with
  | date t =>
    cases h : (Value.date t).objGet disc <;>
      simp [parse, duDispatch, duLoop_eq_find, parse_objectV, h]
  | obj fields =>
    cases h : (Value.obj fields).objGet disc <;>
      simp [parse, duDispatch, duLoop_eq_find, parse_objectV, h]
  | _ => simp [parse, duDispatch]

/-- Claim C3: a union tries its candidates in declaration order and returns
the parse result of the first succeeding candidate; when every candidate
fails it fails with the single generic no-candidate-matched error. -/
theorem unionV_parse_first_match (cands : List Schema) (v : Value) :
    parse (.unionV cands) v =
      (match cands.find? (fun c => (parse c v).isOk) with
       | some c => parse c v
       | none => .err .notInUnion) := by
  rw [parse]
  induction cands with
  | nil => simp [unionLoop]
  | cons c cs ih =>
    rw [unionLoop]
    cases h : parse c v with
    | ok o => simp [List.find?_cons, h, Res.isOk]
    | err e => simp [List.find?_cons, h, Res.isOk, ih]

/-- Claim C5 (showing the code defect): an array validator configured with
an exact-length constraint rejects an input of exactly that length with the
length error, and accepts an input whose length differs. -/
theorem arrayV_exact_length_inverted :
    parse (.arrayV (.numberV NumConf.base) none none (some 2))
      (.arr [.num (.fin 1), .num (.fin 2)]) = .err (.arrLenNeq 2) ∧
    parse (.arrayV (.numberV NumConf.base) none none (some 2))
      (.arr [.num (.fin 1)]) = .ok (.arr [.num (.fin 1)]) := by
  constructor
  · simp [parse, NumConf.base]
  · simp [parse, arrayAfterLen, arrayLoop, NumConf.base, numCheckInt, numCheckSafe,
      numCheckFinite, numCheckGt, numCheckGte, numCheckLt, numCheckLte, numCheckMin,
      numCheckMax, numCheckPositive, numCheckNonpositive, numCheckNegative,
      numCheckNonnegative]

/-- Counterexample to claim C6: a sequence input is not rejected by a
keyed-object validator — an empty-shape object validator accepts an array
outright, and a non-empty shape proceeds to validate its declared fields
against the array's properties instead of failing with a type mismatch. -/
theorem objectV_accepts_sequence_input :
    parse (.objectV []) (.arr []) = .ok (.obj []) ∧
    parse (.objectV [("a", .stringV none none)]) (.arr []) =
      .err (.fieldErrors [("a", .notString)]) := by
  constructor
  · simp [parse, objectParse, collectErrors, collectFields, Value.typeofObject, Value.isNull]
  · simp [parse, objectParse, collectErrors, collectFields, Value.typeofObject,
      Value.isNull, Value.objGet, pathKey]

/-- Claim C6 as amended: a keyed-object validator fails with the
type-mismatch error, validating no field, exactly on inputs that are not of
runtime object type or are null (undefined, booleans, numbers, strings,
null); sequences and date objects pass the type guard and have their
declared fields validated as properties. -/
theorem objectV_type_guard (shape : List (String × Schema)) (v : Value)
    (h : v.typeofObject = false ∨ v = .null) :
    parse (.objectV shape) v = .err (.fieldErrors [("", .notObject)]) := by
  rw [parse_objectV, objectParse, collectErrors]
  rcases h with h | h
  · simp [h]
  · subst h; simp [Value.isNull]

/-- Witness for the amended C6 at a number input. -/
theorem objectV_type_guard_instance :
    ((Value.num (.fin 0)).typeofObject = false ∨ Value.num (.fin 0) = .null) ∧
    parse (.objectV [("a", .booleanV)]) (.num (.fin 0)) =
      .err (.fieldErrors [("", .notObject)]) := by
  exact ⟨Or.inl rfl, objectV_type_guard _ _ (Or.inl rfl)⟩

theorem numCheckNonnegative_spec (cfg : NumConf) (n : JSNum) :
    numCheckNonnegative cfg n = headRes n (segNonnegative cfg n) := by
  by_cases h : (cfg.nonnegative && n.jsLt (.fin 0)) = true <;>
    simp [numCheckNonnegative, segNonnegative, headRes, h]

theorem numCheckNegative_spec (cfg : NumConf) (n : JSNum) :
    numCheckNegative cfg n =
      headRes n (segNegative cfg n ++ segNonnegative cfg n) := by
  by_cases h : (cfg.negative && n.jsGe (.fin 0)) = true <;>
    simp [numCheckNegative, segNegative, headRes, h, numCheckNonnegative_spec]

theorem numCheckNonpositive_spec (cfg : NumConf) (n : JSNum) :
    numCheckNonpositive cfg n =
      headRes n (segNonpositive cfg n ++ segNegative cfg n ++
        segNonnegative cfg n) := by
  by_cases h : (cfg.nonpositive && n.jsGt (.fin 0)) = true <;>
    simp [numCheckNonpositive, segNonpositive, headRes, h, numCheckNegative_spec]

theorem numCheckPositive_spec (cfg : NumConf) (n : JSNum) :
    numCheckPositive cfg n =
      headRes n (segPositive cfg n ++ segNonpositive cfg n ++
        segNegative cfg n ++ segNonnegative cfg n) := by
  by_cases h : (cfg.positive && n.jsLe (.fin 0)) = true <;>
    simp [numCheckPositive, segPositive, headRes, h, numCheckNonpositive_spec]

theorem numCheckMax_spec (cfg : NumConf) (n : JSNum) :
    numCheckMax cfg n =
      headRes n (segMax cfg n ++ segPositive cfg n ++ segNonpositive cfg n ++
        segNegative cfg n ++ segNonnegative cfg n) := by
  cases hm : cfg.mx with
  | none => simp [numCheckMax, segMax, hm, numCheckPositive_spec]
  | some m =>
    by_cases h : n.jsGt m = true <;>
      simp [numCheckMax, segMax, hm, h, headRes, numCheckPositive_spec]

theorem numCheckMin_spec (cfg : NumConf) (n : JSNum) :
    numCheckMin cfg n =
      headRes n (segMin cfg n ++ segMax cfg n ++ segPositive cfg n ++
        segNonpositive cfg n ++ segNegative cfg n ++ segNonnegative cfg n) := by
  cases hm : cfg.mn with
  | none => simp [numCheckMin, segMin, hm, numCheckMax_spec]
  | some m =>
    by_cases h : n.jsLt m = true <;>
      simp [numCheckMin, segMin, hm, h, headRes, numCheckMax_spec]

theorem numCheckLte_spec (cfg : NumConf) (n : JSNum) :
    numCheckLte cfg n =
      headRes n (segLte cfg n ++ segMin cfg n ++ segMax cfg n ++
        segPositive cfg n ++ segNonpositive cfg n ++ segNegative cfg n ++
        segNonnegative cfg n) := by
  cases hm : cfg.lte with
  | none => simp [numCheckLte, segLte, hm, numCheckMin_spec]
  | some m =>
    by_cases h : n.jsGt m = true <;>
      simp [numCheckLte, segLte, hm, h, headRes, numCheckMin_spec]

theorem numCheckLt_spec (cfg : NumConf) (n : JSNum) :
    numCheckLt cfg n =
      headRes n (segLt cfg n ++ segLte cfg n ++ segMin cfg n ++
        segMax cfg n ++ segPositive cfg n ++ segNonpositive cfg n ++
        segNegative cfg n ++ segNonnegative cfg n) := by
  cases hm : cfg.lt with
  | none => simp [numCheckLt, segLt, hm, numCheckLte_spec]
  | some m =>
    by_cases h : n.jsGe m = true <;>
      simp [numCheckLt, segLt, hm, h, headRes, numCheckLte_spec]

theorem numCheckGte_spec (cfg : NumConf) (n : JSNum) :
    numCheckGte cfg n =
      headRes n (segGte cfg n ++ segLt cfg n ++ segLte cfg n ++
        segMin cfg n ++ segMax cfg n ++ segPositive cfg n ++
        segNonpositive cfg n ++ segNegative cfg n ++ segNonnegative cfg n) := by
  cases hm : cfg.gte with
  | none => simp [numCheckGte, segGte, hm, numCheckLt_spec]
  | some m =>
    by_cases h : n.jsLt m = true <;>
      simp [numCheckGte, segGte, hm, h, headRes, numCheckLt_spec]

theorem numCheckGt_spec (cfg : NumConf) (n : JSNum) :
    numCheckGt cfg n =
      headRes n (segGt cfg n ++ segGte cfg n ++ segLt cfg n ++
        segLte cfg n ++ segMin cfg n ++ segMax cfg n ++ segPositive cfg n ++
        segNonpositive cfg n ++ segNegative cfg n ++ segNonnegative cfg n) := by
  cases hm : cfg.gt with
  | none => simp [numCheckGt, segGt, hm, numCheckGte_spec]
  | some m =>
    by_cases h : n.jsLe m = true <;>
      simp [numCheckGt, segGt, hm, h, headRes, numCheckGte_spec]

theorem numCheckFinite_spec (cfg : NumConf) (n : JSNum) :
    numCheckFinite cfg n =
      headRes n (segFinite cfg n ++ segGt cfg n ++ segGte cfg n ++
        segLt cfg n ++ segLte cfg n ++ segMin cfg n ++ segMax cfg n ++
        segPositive cfg n ++ segNonpositive cfg n ++ segNegative cfg n ++
        segNonnegative cfg n) := by
  by_cases h : (cfg.finite && !n.isFiniteNum) = true <;>
    simp [numCheckFinite, segFinite, headRes, h, numCheckGt_spec]

theorem numCheckSafe_spec (cfg : NumConf) (n : JSNum) :
    numCheckSafe cfg n =
      headRes n (segSafe cfg n ++ segFinite cfg n ++ segGt cfg n ++
        segGte cfg n ++ segLt cfg n ++ segLte cfg n ++ segMin cfg n ++
        segMax cfg n ++ segPositive cfg n ++ segNonpositive cfg n ++
        segNegative cfg n ++ segNonnegative cfg n) := by
  by_cases h : (cfg.safe && !n.isSafeInteger) = true <;>
    simp [numCheckSafe, segSafe, headRes, h, numCheckFinite_spec]

theorem numCheckInt_spec (cfg : NumConf) (n : JSNum) :
    numCheckInt cfg n = headRes n (failingChecks cfg n) := by
  by_cases h : (cfg.int && !n.isInteger) = true <;>
    simp [numCheckInt, failingChecks, segInt, headRes, h, numCheckSafe_spec]

/-- Counterexample to claim C7: on input 2.5 against `number().int().min(3)`
both the integer refinement and the min bound are violated, yet parse
reports the integer error, not the bound's error as the claim demands. -/
theorem numberV_domain_before_bounds :
    JSNum.isInteger (.fin (5 / 2)) = false ∧
    JSNum.jsLt (.fin (5 / 2)) (.fin 3) = true ∧
    parse (.numberV { int := true, mn := some (.fin 3) }) (.num (.fin (5 / 2))) =
      .err .notInteger ∧
    Err.notInteger ≠ Err.numLtMin (.fin 3) := by
  refine ⟨?_, ?_, ?_, by simp⟩
  · simp [JSNum.isInteger]
    norm_num
  · simp [JSNum.jsLt]
    norm_num
  · simp [parse, numCheckInt, JSNum.isInteger]
    norm_num

/-- Claim C7 as amended: `NumberV` refinements are evaluated in a fixed
order with the domain checks (integer, safe-integer, finite) first, then
the bounds (gt, gte, lt, lte, min, max), then the sign checks; evaluation
stops at the first failing refinement, whose description becomes the error;
in particular, an input violating both a configured bound and a configured
integer/finite/safe refinement reports the domain refinement's error. -/
theorem numberV_first_failing_check (cfg : NumConf) (n : JSNum) :
    parse (.numberV cfg) (.num n) = headRes n (failingChecks cfg n) := by
  simp [parse, numCheckInt_spec]

/-- Claim C4: `optional(inner).parse(undefined)` succeeds with the absence
marker when no default is configured and with the configured default when
one is (the default-carrying `OptionalV` of `src/validators.ts`);
`nullable(inner).parse(null)` succeeds with null; `nullish(inner)` succeeds
on both sentinels, returning the sentinel that was passed in; every other
input is delegated to the inner validator, whose result — failure
included — is returned unchanged. -/
theorem modifier_sentinel_semantics (inner : Schema) (d v : Value) :
    optionalDParse inner .undefined .undefined = .ok .undefined ∧
    (d ≠ .undefined → optionalDParse inner d .undefined = .ok d) ∧
    parse (.optionalV inner) .undefined = .ok .undefined ∧
    parse (.nullableV inner) .null = .ok .null ∧
    parse (.nullishV inner) .null = .ok .null ∧
    parse (.nullishV inner) .undefined = .ok .undefined ∧
    (v ≠ .undefined → parse (.optionalV inner) v = parse inner v) ∧
    (v ≠ .undefined → optionalDParse inner d v = parse inner v) ∧
    (v ≠ .null → parse (.nullableV inner) v = parse inner v) ∧
    (v ≠ .null → v ≠ .undefined → parse (.nullishV inner) v = parse inner v) := by
  refine ⟨rfl, ?_, by simp [parse], by simp [parse], by simp [parse], by simp [parse],
    ?_, ?_, ?_, ?_⟩
  · intro hd
    cases d <;> first | exact absurd rfl hd | rfl
  · intro hv
    cases v <;> first | exact absurd rfl hv | simp [parse]
  · intro hv
    cases v <;> first | exact absurd rfl hv | rfl
  · intro hv
    cases v <;> first | exact absurd rfl hv | simp [parse]
  · intro hn hu
    cases v <;> first | exact absurd rfl hn | exact absurd rfl hu | simp [parse]

/-- Witness for C4: the configured default is produced on an absent input,
and a present invalid input propagates the inner failure unchanged. -/
theorem modifier_sentinel_semantics_instance :
    (Value.str "x" ≠ .undefined) ∧
    optionalDParse (.stringV none none) (.str "x") .undefined = .ok (.str "x") ∧
    (Value.bool true ≠ .undefined) ∧
    parse (.optionalV (.stringV none none)) (.bool true) = .err .notString := by
  obtain ⟨h1, h2, h3, h4, h5, h6, h7, h8, h9, h10⟩ :=
    modifier_sentinel_semantics (.stringV none none) (.str "x") (.bool true)
  refine ⟨by simp, h2 (by simp), by simp, ?_⟩
  rw [h7 (by simp)]
  simp [parse]

/-- Claim C9: `Parser.default` is literally `optional` composed with a
transform substituting the default for the absence marker; consequently
`parse(undefined)` succeeds with the default, a present input is delegated
to the wrapped validator with a successful `undefined` output also replaced
by the default, failures propagate unchanged, and (for a default that is
not itself the absence marker) a successful output is never the absence
marker. -/
theorem default_eq_optional_transform (p : Schema) (d v : Value) :
    Schema.defaultV p d =
      .transformV (.optionalV p) (fun w => match w with | .undefined => d | _ => w) ∧
    parse (Schema.defaultV p d) .undefined = .ok d ∧
    (v ≠ .undefined →
      parse (Schema.defaultV p d) v =
        (match parse p v with
         | .ok u => .ok (match u with | .undefined => d | _ => u)
         | .err e => .err e)) ∧
    (d ≠ .undefined → ∀ u, parse (Schema.defaultV p d) v = .ok u → u ≠ .undefined) := by
  refine ⟨rfl, by simp [Schema.defaultV, parse], ?_, ?_⟩
  · intro hv
    cases v <;> first
      | exact absurd rfl hv
      | (simp only [Schema.defaultV, parse]
         cases h : parse p _ <;> simp [h])
  · intro hd u hu
    cases v with
    | undefined =>
      simp [Schema.defaultV, parse] at hu
      subst hu
      exact hd
    | _ =>
      simp only [Schema.defaultV, parse] at hu
      cases h : parse p _ <;> rw [h] at hu <;> simp at hu
      next o =>
        cases o <;> simp at hu <;> subst hu <;> simp_all

/-- Witness for C9 with a validator that can output the absence marker when
wrapped: the default replaces both an absent input and an inner undefined
success. -/
theorem default_eq_optional_transform_instance :
    parse (Schema.defaultV (.numberV NumConf.base) (.num (.fin 7))) .undefined =
      .ok (.num (.fin 7)) ∧
    (Value.num (.fin 2) ≠ .undefined) ∧
    parse (Schema.defaultV (.numberV NumConf.base) (.num (.fin 7)))
      (.num (.fin 2)) = .ok (.num (.fin 2)) ∧
    (Value.num (.fin 7) ≠ .undefined) := by
  obtain ⟨h1, h2, h3, h4⟩ :=
    default_eq_optional_transform (.numberV NumConf.base) (.num (.fin 7))
      (.num (.fin 2))
  refine ⟨h2, by simp, ?_, by simp⟩
  rw [h3 (by simp)]
  simp [parse, NumConf.base, numCheckInt, numCheckSafe, numCheckFinite, numCheckGt,
    numCheckGte, numCheckLt, numCheckLte, numCheckMin, numCheckMax, numCheckPositive,
    numCheckNonpositive, numCheckNegative, numCheckNonnegative]

/-- Counterexample to claim C8: a tuple position failure and a record value
failure are returned as the child's error unchanged, with no position or
key tag prepended. -/
theorem tuple_record_failures_untagged :
    parse (.tupleV [.stringV none none] none) (.arr [.num (.fin 5)]) =
      .err .notString ∧
    parse (.recordV (.numberV NumConf.base)) (.obj [("a", .str "s")]) =
      .err .notNumber := by
  constructor
  · simp [parse, tupleFixed]
  · simp [parse, recordLoop, Value.recordFields]

theorem arrayLoop_prefix_err (elem : Schema) (es1 : List Value) (x : Value)
    (es2 : List Value) (e : Err)
    (hpre : ∀ y ∈ es1, (parse elem y).isOk = true)
    (hx : parse elem x = .err e) :
    ∀ i, arrayLoop elem (es1 ++ x :: es2) i = .error (.atIndex (i + es1.length) e) := by
  induction es1 with
  | nil => intro i; simp [arrayLoop, hx]
  | cons y ys ih =>
    intro i
    have hy := hpre y (by simp)
    cases h : parse elem y with
    | err er => simp [h, Res.isOk] at hy
    | ok o =>
      have hrec := ih (fun z hz => hpre z (by simp [hz])) (i + 1)
      have harith : i + 1 + ys.length = i + (ys.length + 1) := by omega
      rw [harith] at hrec
      simp [arrayLoop, h, hrec]

theorem tupleFixed_prefix_err (ps1 : List Schema) (vs1 : List Value)
    (p : Schema) (ps2 : List Schema) (x : Value) (vs2 : List Value) (e : Err)
    (hpre : List.Forall₂ (fun q w => (parse q w).isOk = true) ps1 vs1)
    (hx : parse p x = .err e) :
    tupleFixed (ps1 ++ p :: ps2) (vs1 ++ x :: vs2) = .error e := by
  induction hpre with
  | nil => simp [tupleFixed, hx]
  | cons hqw hrest ih =>
    rename_i q w qs ws
    cases h : parse q w with
    | err er => simp [h, Res.isOk] at hqw
    | ok o => simp [tupleFixed, h, ih]

theorem recordLoop_prefix_err (val : Schema) (fs1 : List (String × Value))
    (k : String) (x : Value) (fs2 : List (String × Value)) (e : Err)
    (hpre : ∀ pr ∈ fs1, (parse val pr.2).isOk = true)
    (hx : parse val x = .err e) :
    recordLoop val (fs1 ++ (k, x) :: fs2) = .error e := by
  induction fs1 with
  | nil => simp [recordLoop, hx]
  | cons pr ps ih =>
    obtain ⟨k1, y⟩ := pr
    have hy := hpre (k1, y) (by simp)
    cases h : parse val y with
    | err er => simp [h, Res.isOk] at hy
    | ok o => simp [recordLoop, h, ih (fun z hz => hpre z (by simp [hz]))]

/-- Claim C8 as amended: an array element failure is tagged with the
element's index and an object field failure is reported under the field's
path inside the aggregated error collection, while a tuple position failure
and a record value failure propagate the child's error unchanged, with no
position or key tag. -/
theorem structural_error_tagging :
    (∀ (elem : Schema) (es1 : List Value) (x : Value) (es2 : List Value) (e : Err),
      (∀ y ∈ es1, (parse elem y).isOk = true) → parse elem x = .err e →
      parse (.arrayV elem none none none) (.arr (es1 ++ x :: es2)) =
        .err (.atIndex es1.length e)) ∧
    (∀ (shape : List (String × Schema)) (v : Value) (k : String) (s : Schema) (e : Err),
      v.typeofObject = true → v ≠ .null →
      (k, s) ∈ shape → parse s (v.objGet k) = .err e →
      ∃ l, parse (.objectV shape) v = .err (.fieldErrors l) ∧ (k, e) ∈ l) ∧
    (∀ (ps1 : List Schema) (p : Schema) (ps2 : List Schema) (vs1 : List Value)
        (x : Value) (vs2 : List Value) (e : Err),
      List.Forall₂ (fun q w => (parse q w).isOk = true) ps1 vs1 →
      parse p x = .err e →
      (vs1 ++ x :: vs2).length = (ps1 ++ p :: ps2).length →
      parse (.tupleV (ps1 ++ p :: ps2) none) (.arr (vs1 ++ x :: vs2)) = .err e) ∧
    (∀ (val : Schema) (fs1 : List (String × Value)) (k : String) (x : Value)
        (fs2 : List (String × Value)) (e : Err),
      (∀ pr ∈ fs1, (parse val pr.2).isOk = true) → parse val x = .err e →
      parse (.recordV val) (.obj (fs1 ++ (k, x) :: fs2)) = .err e) := by
  refine ⟨?_, ?_, ?_, ?_⟩
  · intro elem es1 x es2 e hpre hx
    have h := arrayLoop_prefix_err elem es1 x es2 e hpre hx 0
    simp at h
    simp [parse, arrayAfterLen, h]
  · intro shape v k s e h1 h2 hmem hfail
    have hmemf : (k, e) ∈ fieldFailures shape v := by
      refine List.mem_filterMap.2 ⟨(k, s), hmem, ?_⟩
      simp [hfail]
    rw [parse_objectV, objectParse, collectErrors_of_keyed shape v h1 h2]
    cases hf : fieldFailures shape v with
    | nil => rw [hf] at hmemf; simp at hmemf
    | cons e1 es1 =>
      rw [hf] at hmemf
      exact ⟨e1 :: es1, rfl, hmemf⟩
  · intro ps1 p ps2 vs1 x vs2 e hpre hx hlen
    simp [parse, hlen, tupleFixed_prefix_err ps1 vs1 p ps2 x vs2 e hpre hx]
  · intro val fs1 k x fs2 e hpre hx
    simp [parse, Value.recordFields,
      recordLoop_prefix_err val fs1 k x fs2 e hpre hx]

/-- Witness for the amended C8, at one concrete instance of each combinator:
the array failure is index-tagged, the object failure is path-tagged inside
the aggregated collection, and the tuple and record failures carry the bare
child error. -/
theorem structural_error_tagging_instance :
    parse (.arrayV .booleanV none none none) (.arr [.bool true, .num .nan]) =
      .err (.atIndex 1 .notBoolean) ∧
    (∃ l, parse (.objectV [("a", .booleanV)]) (.obj [("a", .num .nan)]) =
      .err (.fieldErrors l) ∧ ("a", Err.notBoolean) ∈ l) ∧
    parse (.tupleV [.booleanV, .booleanV] none) (.arr [.bool true, .num .nan]) =
      .err .notBoolean ∧
    parse (.recordV .booleanV) (.obj [("a", .bool true), ("b", .num .nan)]) =
      .err .notBoolean := by
  obtain ⟨ha, ho, ht, hr⟩ := structural_error_tagging
  refine ⟨?_, ?_, ?_, ?_⟩
  · have := ha .booleanV [.bool true] (.num .nan) [] .notBoolean
      (by intro y hy; simp at hy; subst hy; simp [parse, Res.isOk])
      (by simp [parse])
    simpa using this
  · exact ho [("a", .booleanV)] (.obj [("a", .num .nan)]) "a" .booleanV .notBoolean
      rfl (by simp) (by simp) (by simp [parse, Value.objGet, List.lookup])
  · have := ht [.booleanV] .booleanV [] [.bool true] (.num .nan) [] .notBoolean
      (by constructor
          · simp [parse, Res.isOk]
          · constructor)
      (by simp [parse]) (by simp)
    simpa using this
  · have := hr .booleanV [("a", .bool true)] "b" (.num .nan) [] .notBoolean
      (by intro pr hpr; simp at hpr; subst hpr; simp [parse, Res.isOk])
      (by simp [parse])
    simpa using this

theorem arrayLoop_ok_forall₂ (elem : Schema) :
    ∀ (es : List Value) (os : List Value) (i : ℕ),
      arrayLoop elem es i = .ok os →
      List.Forall₂ (fun w o => parse elem w = .ok o) es os := by
  intro es
  induction es with
  | nil =>
    intro os i h
    simp [arrayLoop] at h
    subst h
    constructor
  | cons e rest ih =>
    intro os i h
    rw [arrayLoop] at h
    cases hp : parse elem e with
    | err er => rw [hp] at h; simp at h
    | ok o =>
      rw [hp] at h
      cases hl : arrayLoop elem rest (i + 1) with
      | error er => rw [hl] at h; simp at h
      | ok os' =>
        rw [hl] at h
        simp at h
        subst h
        exact List.Forall₂.cons hp (ih os' (i + 1) hl)

theorem arrayLoop_self (elem : Schema) :
    ∀ (os : List Value), (∀ o ∈ os, parse elem o = .ok o) →
      ∀ i, arrayLoop elem os i = .ok os := by
  intro os
  induction os with
  | nil => intro _ i; simp [arrayLoop]
  | cons o rest ih =>
    intro h i
    have ho := h o (by simp)
    have hrest := ih (fun z hz => h z (by simp [hz])) (i + 1)
    simp [arrayLoop, ho, hrest]

theorem tupleFixed_ok_forall₂ :
    ∀ (items : List Schema) (es os : List Value),
      tupleFixed items es = .ok os →
      List.Forall₂ (fun p o => ∃ w, parse p w = .ok o) items os := by
  intro items
  induction items with
  | nil =>
    intro es os h
    simp [tupleFixed] at h
    subst h
    constructor
  | cons p ps ih =>
    intro es os h
    rw [tupleFixed] at h
    cases hp : parse p (es.headD .undefined) with
    | err er => rw [hp] at h; simp at h
    | ok o =>
      rw [hp] at h
      cases hl : tupleFixed ps es.tail with
      | error er => rw [hl] at h; simp at h
      | ok os' =>
        rw [hl] at h
        simp at h
        subst h
        exact List.Forall₂.cons ⟨_, hp⟩ (ih es.tail os' hl)

theorem tupleFixed_self (items : List Schema) (os1 : List Value)
    (h : List.Forall₂ (fun p o => parse p o = .ok o) items os1) :
    ∀ buf, tupleFixed items (os1 ++ buf) = .ok os1 := by
  induction h with
  | nil => intro buf; simp [tupleFixed]
  | cons hpo hrest ih =>
    intro buf
    rename_i p o ps os
    simp [tupleFixed, hpo, ih buf]

theorem tupleRest_ok_forall₂ (r : Schema) :
    ∀ (es os : List Value), tupleRest r es = .ok os →
      List.Forall₂ (fun w o => parse r w = .ok o) es os := by
  intro es
  induction es with
  | nil =>
    intro os h
    simp [tupleRest] at h
    subst h
    constructor
  | cons e rest ih =>
    intro os h
    rw [tupleRest] at h
    cases hp : parse r e with
    | err er => rw [hp] at h; simp at h
    | ok o =>
      rw [hp] at h
      cases hl : tupleRest r rest with
      | error er => rw [hl] at h; simp at h
      | ok os' =>
        rw [hl] at h
        simp at h
        subst h
        exact List.Forall₂.cons hp (ih os' hl)

theorem tupleRest_self (r : Schema) :
    ∀ (os : List Value), (∀ o ∈ os, parse r o = .ok o) →
      tupleRest r os = .ok os := by
  intro os
  induction os with
  | nil => intro _; simp [tupleRest]
  | cons o rest ih =>
    intro h
    have ho := h o (by simp)
    have hrest := ih (fun z hz => h z (by simp [hz]))
    simp [tupleRest, ho, hrest]

theorem recordLoop_ok_forall₂ (val : Schema) :
    ∀ (fs outs : List (String × Value)), recordLoop val fs = .ok outs →
      List.Forall₂ (fun pr out => pr.1 = out.1 ∧ parse val pr.2 = .ok out.2) fs outs := by
  intro fs
  induction fs with
  | nil =>
    intro outs h
    simp [recordLoop] at h
    subst h
    constructor
  | cons pr rest ih =>
    intro outs h
    obtain ⟨k, x⟩ := pr
    rw [recordLoop] at h
    cases hp : parse val x with
    | err er => rw [hp] at h; simp at h
    | ok o =>
      rw [hp] at h
      cases hl : recordLoop val rest with
      | error er => rw [hl] at h; simp at h
      | ok os' =>
        rw [hl] at h
        simp at h
        subst h
        exact List.Forall₂.cons ⟨rfl, hp⟩ (ih os' hl)

theorem recordLoop_self (val : Schema) :
    ∀ (outs : List (String × Value)), (∀ pr ∈ outs, parse val pr.2 = .ok pr.2) →
      recordLoop val outs = .ok outs := by
  intro outs
  induction outs with
  | nil => intro _; simp [recordLoop]
  | cons pr rest ih =>
    intro h
    obtain ⟨k, o⟩ := pr
    have ho := h (k, o) (by simp)
    have hrest := ih (fun z hz => h z (by simp [hz]))
    simp at ho
    simp [recordLoop, ho, hrest]

theorem collectFields_ok_forall₂ (v : Value) :
    ∀ (shape : List (String × Schema)), fieldFailures shape v = [] →
      List.Forall₂
        (fun kv out => kv.1 = out.1 ∧ parse kv.2 (v.objGet kv.1) = .ok out.2)
        shape (fieldSuccesses shape v) := by
  intro shape
  induction shape with
  | nil => intro _; simp [fieldSuccesses]
  | cons kv rest ih =>
    intro h
    obtain ⟨k, s⟩ := kv
    cases hp : parse s (v.objGet k) with
    | err e => simp [fieldFailures, List.filterMap_cons, hp] at h
    | ok o =>
      have hrest : fieldFailures rest v = [] := by
        simpa [fieldFailures, List.filterMap_cons, hp] using h
      have : fieldSuccesses ((k, s) :: rest) v = (k, o) :: fieldSuccesses rest v := by
        simp [fieldSuccesses, List.filterMap_cons, hp]
      rw [this]
      exact List.Forall₂.cons ⟨rfl, hp⟩ (ih hrest)

theorem collectFields_of_all_ok (whole : List (String × Value)) :
    ∀ (shape : List (String × Schema)) (outs : List (String × Value)),
      List.Forall₂
        (fun kv out => kv.1 = out.1 ∧ (Value.obj whole).objGet kv.1 = out.2 ∧
          parse kv.2 out.2 = .ok out.2)
        shape outs →
      collectFields shape (.obj whole) "" = (outs, []) := by
  intro shape outs h
  induction h with
  | nil => simp [collectFields]
  | cons hkv hrest ih =>
    rename_i kv out shape' outs'
    obtain ⟨k, s⟩ := kv
    obtain ⟨k', o⟩ := out
    obtain ⟨hk, hget, hparse⟩ := hkv
    dsimp at hk hget hparse
    subst hk
    simp [collectFields, hget, hparse, ih]

theorem lookup_of_nodup :
    ∀ (outs : List (String × Value)) (k : String) (o : Value),
      (outs.map Prod.fst).Nodup → (k, o) ∈ outs → outs.lookup k = some o := by
  intro outs
  induction outs with
  | nil => intro k o _ hm; simp at hm
  | cons pr rest ih =>
    intro k o hnd hm
    obtain ⟨k1, o1⟩ := pr
    rw [List.map_cons, List.nodup_cons] at hnd
    rcases List.mem_cons.1 hm with heq | hmem
    · injection heq with hk ho
      subst hk
      subst ho
      rw [List.lookup]
      have hb : (k == k) = true := beq_self_eq_true k
      rw [hb]
    · have hkmem : k ∈ rest.map Prod.fst := List.mem_map_of_mem Prod.fst hmem
      have hk : k ≠ k1 := fun hkk => hnd.1 (hkk ▸ hkmem)
      rw [List.lookup]
      have hb : (k == k1) = false := beq_eq_false_iff_ne.mpr hk
      rw [hb]
      exact ih k o hnd.2 hmem

theorem forall₂_keys_eq {r : (String × Schema) → (String × Value) → Prop}
    (shape : List (String × Schema)) (outs : List (String × Value))
    (h : List.Forall₂ (fun kv out => kv.1 = out.1 ∧ r kv out) shape outs) :
    outs.map Prod.fst = shape.map Prod.fst := by
  induction h with
  | nil => rfl
  | cons hkv hrest ih =>
    rename_i kv out shape' outs'
    simp [ih, hkv.1]

theorem plainShape_mem :
    ∀ (shape : List (String × Schema)), plainShape shape = true →
      ∀ kv ∈ shape, plain kv.2 = true := by
  intro shape
  induction shape with
  | nil => intro _ kv hm; simp at hm
  | cons hd rest ih =>
    intro h kv hm
    obtain ⟨k, s⟩ := hd
    simp [plainShape] at h
    rcases List.mem_cons.1 hm with heq | hmem
    · subst heq; exact h.1
    · exact ih h.2 kv hmem

theorem plainList_mem :
    ∀ (l : List Schema), plainList l = true → ∀ s ∈ l, plain s = true := by
  intro l
  induction l with
  | nil => intro _ s hm; simp at hm
  | cons hd rest ih =>
    intro h s hm
    simp [plainList] at h
    rcases List.mem_cons.1 hm with heq | hmem
    · subst heq; exact h.1
    · exact ih h.2 s hmem

theorem arrayAfterLen_ok (elem : Schema) (es : List Value) (mn mx : Option ℕ)
    (w : Value) (h : arrayAfterLen elem es mn mx = .ok w) :
    ∃ outs, w = .arr outs ∧ arrayLoop elem es 0 = .ok outs ∧
      (∀ m, mn = some m → ¬ es.length < m) ∧
      (∀ m, mx = some m → ¬ m < es.length) := by
  cases mn <;> cases mx <;> rw [arrayAfterLen] at h
  case none.none =>
    cases hl : arrayLoop elem es 0 with
    | error er => rw [hl] at h; simp at h
    | ok outs =>
      rw [hl] at h
      simp at h
      exact ⟨outs, h.symm, rfl, by simp, by simp⟩
  case none.some m2 =>
    split_ifs at h with h2
    · cases hl : arrayLoop elem es 0 with
      | error er => rw [hl] at h; simp at h
      | ok outs =>
        rw [hl] at h
        simp at h
        exact ⟨outs, h.symm, rfl, by simp, by simpa using h2⟩
  case some.none m =>
    split_ifs at h with h1
    · cases hl : arrayLoop elem es 0 with
      | error er => rw [hl] at h; simp at h
      | ok outs =>
        rw [hl] at h
        simp at h
        exact ⟨outs, h.symm, rfl, by simpa using h1, by simp⟩
  case some.some m m2 =>
    split_ifs at h with h1 h2
    · cases hl : arrayLoop elem es 0 with
      | error er => rw [hl] at h; simp at h
      | ok outs =>
        rw [hl] at h
        simp at h
        exact ⟨outs, h.symm, rfl, by simpa using h1, by simpa using h2⟩

theorem arrayAfterLen_mk (elem : Schema) (os : List Value) (mn mx : Option ℕ)
    (hloop : arrayLoop elem os 0 = .ok os)
    (h1 : ∀ m, mn = some m → ¬ os.length < m)
    (h2 : ∀ m, mx = some m → ¬ m < os.length) :
    arrayAfterLen elem os mn mx = .ok (.arr os) := by
  cases mn <;> cases mx <;> rw [arrayAfterLen]
  case none.none => rw [hloop]
  case none.some m2 => rw [if_neg (h2 m2 rfl), hloop]
  case some.none m => rw [if_neg (h1 m rfl), hloop]
  case some.some m m2 => rw [if_neg (h1 m rfl), if_neg (h2 m2 rfl), hloop]

theorem forall₂_mem_right {α β : Type} {r : α → β → Prop} :
    ∀ {as : List α} {bs : List β}, List.Forall₂ r as bs →
      ∀ b ∈ bs, ∃ a ∈ as, r a b := by
  intro as bs h
  induction h with
  | nil => intro b hb; simp at hb
  | cons hab hrest ih =>
    rename_i a b as' bs'
    intro b2 hb2
    rcases List.mem_cons.1 hb2 with heq | hmem
    · exact ⟨a, by simp, heq ▸ hab⟩
    · obtain ⟨a2, ha2, hr2⟩ := ih b2 hmem
      exact ⟨a2, by simp [ha2], hr2⟩

theorem stringV_out_eq (mn mx : Option ℕ) (v w : Value)
    (h : parse (.stringV mn mx) v = .ok w) : w = v := by
  cases v <;> cases mn <;> cases mx <;> simp [parse] at h
  all_goals try split_ifs at h
  all_goals simp_all

theorem numberV_out_eq (cfg : NumConf) (v w : Value)
    (h : parse (.numberV cfg) v = .ok w) : w = v := by
  cases v <;> simp [parse] at h
  case num n =>
    rw [numCheckInt_spec] at h
    cases hf : failingChecks cfg n <;> rw [hf] at h <;> simp [headRes] at h
    exact h.symm

theorem dateV_idem (mn mx : Option JSNum) (v w : Value)
    (h : parse (.dateV mn mx) v = .ok w) : parse (.dateV mn mx) w = .ok w := by
  cases mn <;> cases mx <;> cases hc : dateCoerce v <;> simp [parse, hc] at h
  all_goals try split_ifs at h
  all_goals try simp at h
  all_goals (subst h; clear hc; simp_all [parse, dateCoerce])


theorem parse_idem_aux :
    ∀ (N : ℕ) (s : Schema), sizeOf s < N → ∀ v out, plain s = true →
      parse s v = .ok out → parse s out = .ok out := by
  intro N
  induction N with
  | zero => intro s hs; omega
  | succ n ih =>
    intro s hs v out hp hok
    cases s with
    | transformV inner f => simp [plain] at hp
    | unionV cands => simp [plain] at hp
    | duV disc shapes => simp [plain] at hp
    | booleanV =>
      cases v <;> simp [parse] at hok
      subst hok
      simp [parse]
    | nullV =>
      cases v <;> simp [parse] at hok
      subst hok
      simp [parse]
    | unknownV =>
      simp [parse] at hok
      subst hok
      simp [parse]
    | literalV lit =>
      rw [parse] at hok
      split_ifs at hok with hseq
      simp at hok
      subst hok
      simp [parse, hseq]
    | stringV mn mx =>
      have hw := stringV_out_eq mn mx v out hok
      subst hw
      exact hok
    | numberV cfg =>
      have hw := numberV_out_eq cfg v out hok
      subst hw
      exact hok
    | dateV mn mx => exact dateV_idem mn mx v out hok
    | optionalV inner =>
      have hpi : plain inner = true := by simpa [plain] using hp
      have hsz : sizeOf inner < n := by simp at hs; omega
      cases v <;> simp [parse] at hok
      case undefined =>
        subst hok
        simp [parse]
      all_goals (
        have hidem := ih inner hsz _ out hpi hok
        cases out <;> simp [parse, hidem])
    | nullableV inner =>
      have hpi : plain inner = true := by simpa [plain] using hp
      have hsz : sizeOf inner < n := by simp at hs; omega
      cases v <;> simp [parse] at hok
      case null =>
        subst hok
        simp [parse]
      all_goals (
        have hidem := ih inner hsz _ out hpi hok
        cases out <;> simp [parse, hidem])
    | nullishV inner =>
      have hpi : plain inner = true := by simpa [plain] using hp
      have hsz : sizeOf inner < n := by simp at hs; omega
      cases v <;> simp [parse] at hok
      case undefined =>
        subst hok
        simp [parse]
      case null =>
        subst hok
        simp [parse]
      all_goals (
        have hidem := ih inner hsz _ out hpi hok
        cases out <;> simp [parse, hidem])
    | arrayV elem mn mx len =>
      have hpe : plain elem = true := by simpa [plain] using hp
      have hsz : sizeOf elem < n := by simp at hs; omega
      cases v <;> try simp [parse] at hok
      rename_i es
      have hmain : arrayAfterLen elem es mn mx = .ok out ∧
          (∀ l, len = some l → es.length ≠ l) := by
        cases hlen : len with
        | none =>
          subst hlen
          simp only [parse] at hok
          exact ⟨hok, by simp⟩
        | some l =>
          subst hlen
          simp only [parse] at hok
          split_ifs at hok with hl
          exact ⟨hok, by intro l2 hl2; injection hl2 with he; subst he; exact hl⟩
      obtain ⟨haal, hlenok⟩ := hmain
      obtain ⟨outs, hw, hloop, hmn, hmx⟩ := arrayAfterLen_ok elem es mn mx out haal
      subst hw
      have hfa := arrayLoop_ok_forall₂ elem es outs 0 hloop
      have hlen_eq : es.length = outs.length := hfa.length_eq
      have hall : ∀ o ∈ outs, parse elem o = .ok o := by
        intro o hmem
        obtain ⟨w, hwmem, hr⟩ := forall₂_mem_right hfa o hmem
        exact ih elem hsz w o hpe hr
      have hloop2 := arrayLoop_self elem outs hall 0
      have hmk := arrayAfterLen_mk elem outs mn mx hloop2
        (by intro m hm; rw [← hlen_eq]; exact hmn m hm)
        (by intro m hm; rw [← hlen_eq]; exact hmx m hm)
      cases hlen : len with
      | none =>
        subst hlen
        simp only [parse]
        exact hmk
      | some l =>
        subst hlen
        simp only [parse]
        have hne : ¬ outs.length = l := by rw [← hlen_eq]; exact hlenok l rfl
        rw [if_neg hne]
        exact hmk
    | recordV val =>
      have hpv : plain val = true := by simpa [plain] using hp
      have hsz : sizeOf val < n := by simp at hs; omega
      cases v <;> simp [parse] at hok
      case date t =>
        simp [Value.recordFields, recordLoop] at hok
        subst hok
        simp [parse, Value.recordFields, recordLoop]
      case obj fs =>
        simp only [Value.recordFields] at hok
        cases hrl : recordLoop val fs with
        | error e => rw [hrl] at hok; simp at hok
        | ok outs =>
          rw [hrl] at hok
          simp at hok
          subst hok
          have hfa := recordLoop_ok_forall₂ val fs outs hrl
          have hall : ∀ pr ∈ outs, parse val pr.2 = .ok pr.2 := by
            intro pr hmem
            obtain ⟨pr2, hmem2, hr2⟩ := forall₂_mem_right hfa pr hmem
            exact ih val hsz pr2.2 pr.2 hpv hr2.2
          simp [parse, Value.recordFields, recordLoop_self val outs hall]
    | objectV shape =>
      have hnd : (shape.map Prod.fst).Nodup := by
        have h0 := hp
        simp [plain, keysNodup] at h0
        exact h0.1
      have hps : plainShape shape = true := by
        have h0 := hp
        simp [plain] at h0
        exact h0.2
      rw [parse_objectV, objectParse] at hok
      by_cases hcond : (v.typeofObject && !v.isNull) = true
      · rw [collectErrors, if_pos hcond, collectFields_eq] at hok
        cases hff : fieldFailures shape v with
        | cons e es => rw [hff] at hok; simp at hok
        | nil =>
          rw [hff] at hok
          simp at hok
          subst hok
          have hpairs := collectFields_ok_forall₂ v shape hff
          have hkeys := forall₂_keys_eq shape (fieldSuccesses shape v) hpairs
          have hnd2 : ((fieldSuccesses shape v).map Prod.fst).Nodup := by
            rw [hkeys]
            exact hnd
          have hzip := List.forall₂_iff_zip.1 hpairs
          have hforall : List.Forall₂
              (fun kv o => kv.1 = o.1 ∧
                (Value.obj (fieldSuccesses shape v)).objGet kv.1 = o.2 ∧
                parse kv.2 o.2 = .ok o.2)
              shape (fieldSuccesses shape v) := by
            rw [List.forall₂_iff_zip]
            refine ⟨hzip.1, ?_⟩
            intro kv o hmem
            have hro := hzip.2 hmem
            obtain ⟨hkvmem, homem⟩ := List.of_mem_zip hmem
            obtain ⟨ka, oa⟩ := o
            obtain ⟨hk1, hp1⟩ := hro
            refine ⟨hk1, ?_, ?_⟩
            · have hmem2 : (kv.1, oa) ∈ fieldSuccesses shape v := by
                rw [show kv.1 = ka from hk1]
                exact homem
              have hlook := lookup_of_nodup _ kv.1 oa hnd2 hmem2
              simp [Value.objGet, hlook]
            · have hszkv : sizeOf kv.2 < n := by
                have h1 := List.sizeOf_lt_of_mem hkvmem
                have h2 : sizeOf kv.2 < sizeOf kv := by
                  obtain ⟨a, b⟩ := kv
                  simp
                  try omega
                simp at hs
                omega
              exact ih kv.2 hszkv _ oa (plainShape_mem shape hps kv hkvmem) hp1
          have hcf := collectFields_of_all_ok (fieldSuccesses shape v) shape
            (fieldSuccesses shape v) hforall
          rw [parse_objectV, objectParse, collectErrors]
          have hgate : ((Value.obj (fieldSuccesses shape v)).typeofObject &&
              !(Value.obj (fieldSuccesses shape v)).isNull) = true := rfl
          rw [if_pos hgate, hcf]
      · rw [collectErrors, if_neg hcond] at hok
        simp at hok
    | tupleV items rest =>
      cases v <;> try simp [parse] at hok
      rename_i es
      cases hrt : rest with
      | none =>
        subst hrt
        have hpl : plainList items = true := by
          have h0 := hp
          simp [plain] at h0
          exact h0
        simp only [parse] at hok
        split_ifs at hok with hl
        cases htf : tupleFixed items es with
        | error e => rw [htf] at hok; simp at hok
        | ok os =>
          rw [htf] at hok
          simp at hok
          subst hok
          have hfa := tupleFixed_ok_forall₂ items es os htf
          have hlen2 : os.length = items.length := hfa.length_eq.symm
          have hforall : List.Forall₂ (fun p o => parse p o = .ok o) items os := by
            rw [List.forall₂_iff_zip]
            refine ⟨hfa.length_eq, ?_⟩
            intro p o hmem
            obtain ⟨w, hw⟩ := (List.forall₂_iff_zip.1 hfa).2 hmem
            obtain ⟨hpmem, _⟩ := List.of_mem_zip hmem
            have hszp : sizeOf p < n := by
              have h1 := List.sizeOf_lt_of_mem hpmem
              simp at hs
              omega
            exact ih p hszp w o (plainList_mem items hpl p hpmem) hw
          have htf2 := tupleFixed_self items os hforall []
          simp at htf2
          simp [parse, hlen2, htf2]
      | some r =>
        subst hrt
        have hpl : plainList items = true := by
          have h0 := hp
          simp [plain] at h0
          exact h0.1
        have hpr : plain r = true := by
          have h0 := hp
          simp [plain] at h0
          exact h0.2
        simp only [parse] at hok
        cases htf : tupleFixed items es with
        | error e => rw [htf] at hok; simp at hok
        | ok os1 =>
          rw [htf] at hok
          cases htr : tupleRest r (es.drop items.length) with
          | error e => rw [htr] at hok; simp at hok
          | ok os2 =>
            rw [htr] at hok
            simp at hok
            subst hok
            have hfa1 := tupleFixed_ok_forall₂ items es os1 htf
            have hlen1 : os1.length = items.length := hfa1.length_eq.symm
            have hforall1 : List.Forall₂ (fun p o => parse p o = .ok o) items os1 := by
              rw [List.forall₂_iff_zip]
              refine ⟨hfa1.length_eq, ?_⟩
              intro p o hmem
              obtain ⟨w, hw⟩ := (List.forall₂_iff_zip.1 hfa1).2 hmem
              obtain ⟨hpmem, _⟩ := List.of_mem_zip hmem
              have hszp : sizeOf p < n := by
                have h1 := List.sizeOf_lt_of_mem hpmem
                simp at hs
                omega
              exact ih p hszp w o (plainList_mem items hpl p hpmem) hw
            have hszr : sizeOf r < n := by
              simp at hs
              omega
            have hfa2 := tupleRest_ok_forall₂ r _ os2 htr
            have hall2 : ∀ o ∈ os2, parse r o = .ok o := by
              intro o hmem
              obtain ⟨w, hwmem, hr2⟩ := forall₂_mem_right hfa2 o hmem
              exact ih r hszr w o hpr hr2
            have htf2 := tupleFixed_self items os1 hforall1 os2
            have hdrop : (os1 ++ os2).drop items.length = os2 := by
              rw [← hlen1]
              exact List.drop_left os1 os2
            simp [parse, htf2, hdrop, tupleRest_self r os2 hall2]

/-- Counterexample to claim C10: two transform-free schemas (a union and a
discriminated union) and inputs on which parse succeeds but whose output,
re-parsed against the same schema, is accepted by an earlier candidate and
yields a different value. -/
theorem reparse_not_idempotent_with_choice :
    noTransform (.unionV [.objectV [("a", .objectV [("x", .optionalV .booleanV)])],
      .objectV [("a", .objectV []), ("b", .unknownV)]]) = true ∧
    parse (.unionV [.objectV [("a", .objectV [("x", .optionalV .booleanV)])],
      .objectV [("a", .objectV []), ("b", .unknownV)]])
      (.obj [("a", .obj [("x", .num (.fin 1))]), ("b", .num (.fin 7))]) =
      .ok (.obj [("a", .obj []), ("b", .num (.fin 7))]) ∧
    parse (.unionV [.objectV [("a", .objectV [("x", .optionalV .booleanV)])],
      .objectV [("a", .objectV []), ("b", .unknownV)]])
      (.obj [("a", .obj []), ("b", .num (.fin 7))]) =
      .ok (.obj [("a", .obj [("x", .undefined)])]) ∧
    (Value.obj [("a", .obj [("x", .undefined)])] ≠
      .obj [("a", .obj []), ("b", .num (.fin 7))]) ∧
    noTransform (.duV "t" [[("t", .objectV [])],
      [("t", .dateV none none), ("b", .unknownV)]]) = true ∧
    parse (.duV "t" [[("t", .objectV [])], [("t", .dateV none none), ("b", .unknownV)]])
      (.obj [("t", .num (.fin 5)), ("b", .num (.fin 9))]) =
      .ok (.obj [("t", .date (.fin 5)), ("b", .num (.fin 9))]) ∧
    parse (.duV "t" [[("t", .objectV [])], [("t", .dateV none none), ("b", .unknownV)]])
      (.obj [("t", .date (.fin 5)), ("b", .num (.fin 9))]) =
      .ok (.obj [("t", .obj [])]) ∧
    (Value.obj [("t", .obj [])] ≠
      .obj [("t", .date (.fin 5)), ("b", .num (.fin 9))]) := by
  refine ⟨by simp [noTransform, noTransformList, noTransformShape, noTransformShapes],
    ?_, ?_, by simp,
    by simp [noTransform, noTransformList, noTransformShape, noTransformShapes],
    ?_, ?_, by simp⟩
  · simp [parse, unionLoop, objectParse, collectErrors, collectFields, Value.objGet,
      Value.typeofObject, Value.isNull, pathKey, List.lookup]
  · simp [parse, unionLoop, objectParse, collectErrors, collectFields, Value.objGet,
      Value.typeofObject, Value.isNull, pathKey, List.lookup]
  · simp [parse, duLoop, shapeField, objectParse, collectErrors, collectFields,
      Value.objGet, Value.typeofObject, Value.isNull, dateCoerce, ratTrunc, Res.isOk,
      pathKey, List.lookup]
    norm_num [dateCoerce, ratTrunc]
  · simp [parse, duLoop, shapeField, objectParse, collectErrors, collectFields,
      Value.objGet, Value.typeofObject, Value.isNull, dateCoerce, ratTrunc, Res.isOk,
      pathKey, List.lookup]

/-- Claim C10 as amended: for every schema built without the transform
combinator and without the choice combinators (union and discriminated
union), whose object shapes declare pairwise distinct field names,
re-parsing an output that parse produced succeeds and yields that same
value. -/
theorem reparse_idempotent_plain (s : Schema) (v out : Value)
    (hp : plain s = true) (hok : parse s v = .ok out) : parse s out = .ok out :=
  parse_idem_aux (sizeOf s + 1) s (by omega) v out hp hok

/-- Witness for the amended C10: an object schema with an optional field
fills the absent field with the absence marker, and re-parsing that output
reproduces it exactly. -/
theorem reparse_idempotent_plain_instance :
    plain (.objectV [("a", .optionalV .booleanV)]) = true ∧
    parse (.objectV [("a", .optionalV .booleanV)]) (.obj []) =
      .ok (.obj [("a", .undefined)]) ∧
    parse (.objectV [("a", .optionalV .booleanV)]) (.obj [("a", .undefined)]) =
      .ok (.obj [("a", .undefined)]) := by
  have h1 : plain (.objectV [("a", .optionalV .booleanV)]) = true := by
    simp [plain, plainShape, keysNodup]
  have h2 : parse (.objectV [("a", .optionalV .booleanV)]) (.obj []) =
      .ok (.obj [("a", .undefined)]) := by
    simp [parse, objectParse, collectErrors, collectFields, Value.objGet,
      Value.typeofObject, Value.isNull, pathKey, List.lookup]
  exact ⟨h1, h2, reparse_idempotent_plain _ _ _ h1 h2⟩
